import Mathlib

/-!
Verification of the loggui in-memory storage layer.

The Go sources are shallowly embedded: machine `uint`/`uint64` values are
modelled as `Nat` with explicit `% 2^64` reductions exactly where the Go
arithmetic can wrap, nil pointers as `Option`, panics as an explicit
`Except.error` (for slice accesses that can go out of range) or as the
`none` branch of an `Option Bool` result (for `panic` calls inside the
filter code).  Locks, goroutines and channels are concurrency artefacts;
the state they protect is embedded as explicit functional state.
-/

/-- The size of the Go `uint` / `uint64` value space: arithmetic on those
types wraps modulo this constant. -/
def uintSize : Nat := 2 ^ 64

/-- Embeds `loopSubtract64` (storage/buffer.go): `if a < b { return size - (b - a) }
return a - b`.  The subtraction `size - (b - a)` is Go `uint64` arithmetic and
wraps modulo `2^64` when `b - a > size`; the wrap is written out explicitly. -/
def loopSubtract64 (a b size : Nat) : Nat :=
  if a < b then (size + uintSize - (b - a)) % uintSize
  else a - b

/-- Embeds `loopAdd64` (storage/buffer.go): computed with `math/big`
arbitrary-precision integers, hence an exact `(a + b) % size`. -/
def loopAdd64 (a b size : Nat) : Nat := (a + b) % size

/-- Embeds `loopSubtract` (uint wrapper around `loopSubtract64`). -/
def loopSubtract (a b size : Nat) : Nat := loopSubtract64 a b size

/-- Embeds `loopAdd` (uint wrapper around `loopAdd64`). -/
def loopAdd (a b size : Nat) : Nat := loopAdd64 a b size

/-- Embeds `Element[T]` (storage/buffer.go): a cursor into the ring buffer.
`value` is the `*T` the cursor captured (`none` = nil), `pos` its cell index,
`counter` the buffer write count the cursor is pinned to.  The Go field
`buffer *RingBuffer[T]` is passed explicitly to the cursor operations. -/
structure Element (T : Type) where
  value : Option T
  pos : Nat
  counter : Nat
  deriving DecidableEq, Repr

/-- Embeds `RingBuffer[T]` (storage/buffer.go).  `data` is the backing slice
(cells hold `none` until first written), `index` the next write position,
`counter` the total number of writes (Go `uint64`), `prependBefore` the next
backfill slot.  The `listeners` map and the `RWMutex` carry no record state
and are omitted. -/
structure RingBuffer (T : Type) where
  data : List (Option T)
  capacity : Nat
  index : Nat
  counter : Nat
  prependBefore : Nat
  deriving DecidableEq, Repr

/-- Embeds `NewRingBuffer` (storage/buffer.go); the Go constructor panics on
`size == 0`, so the theorems below always assume `0 < size`. -/
def NewRingBuffer (T : Type) (size : Nat) : RingBuffer T :=
  { data := List.replicate size none
    capacity := size
    index := 0
    counter := 0
    prependBefore := size }

/-- Embeds `RingBuffer.Capacity`. -/
def RingBuffer.Capacity {T : Type} (b : RingBuffer T) : Nat := b.capacity

/-- Embeds `RingBuffer.Index`. -/
def RingBuffer.Index {T : Type} (b : RingBuffer T) : Nat := b.index

/-- Embeds `RingBuffer.Write` (storage/buffer.go): stores the item at `index`,
advances `index` by `loopAdd(index, 1, capacity)` and increments the `uint64`
write counter.  The listener fan-out and the displaced item's `Cleanup` hook
touch no buffer state and are omitted.  A nil item panics in Go; the embedded
item `T` is always present. -/
def RingBuffer.Write {T : Type} (b : RingBuffer T) (item : T) : RingBuffer T :=
  { b with
    data := b.data.set b.index (some item)
    index := loopAdd b.index 1 b.capacity
    counter := (b.counter + 1) % uintSize }

/-- Embeds `Element.Valid` (storage/buffer.go): the element is valid when its
value is non-nil and `buffer.counter - element.counter < capacity`, a Go
`uint64` subtraction (written with its explicit wrap). -/
def Element.Valid {T : Type} (b : RingBuffer T) (e : Element T) : Bool :=
  e.value.isSome && ((b.counter + uintSize - e.counter) % uintSize < b.capacity)

/-- Embeds `Element.Next` (storage/buffer.go).  `offset++` is a Go `uint`
increment (wraps modulo `2^64`).  The slice access `e.buffer.data[itemPos]`
panics when `itemPos` falls outside the slice; that panic is the
`Except.error ()` branch. -/
def Element.Next {T : Type} (b : RingBuffer T) (e : Element T) (offset : Nat) :
    Except Unit (Option (Element T)) :=
  let off := (offset + 1) % uintSize
  if off > e.counter then Except.ok none
  else
    let nextCounter := e.counter - off
    let itemPos := loopSubtract e.pos off b.Capacity
    match b.data.get? itemPos with
    | none => Except.error ()
    | some item =>
      let newEl : Element T := { value := item, pos := itemPos, counter := nextCounter }
      if newEl.Valid b then Except.ok (some newEl) else Except.ok none

/-- Embeds `newElement` (storage/buffer.go): nil when no write ever happened,
otherwise the cursor at `loopSubtract(index, 1, capacity)` pinned at the
current counter.  The slice access `b.data[pos]` is in range for every
constructed buffer (`index < capacity`), so it is read with a default. -/
def newElement {T : Type} (b : RingBuffer T) : Option (Element T) :=
  if b.counter = 0 then none
  else
    let pos := loopSubtract b.index 1 b.Capacity
    some { value := b.data.getD pos none, pos := pos, counter := b.counter }

/-- Embeds `RingBuffer.Element` (storage/buffer.go). -/
def RingBuffer.Element {T : Type} (b : RingBuffer T) := newElement b

/-- Embeds `RingBuffer.WriteLastEmpty` (storage/buffer.go), faithfully
including the store target: after decrementing `prependBefore` and checking
that the cell at the decremented position is empty, the Go code executes
`l.data[l.index] = item` - it stores at `index`, not at `prependBefore`.
Returns the new buffer state and the Go return value. -/
def RingBuffer.WriteLastEmpty {T : Type} (b : RingBuffer T) (item : T) :
    RingBuffer T × Bool :=
  if b.prependBefore = 0 then (b, false)
  else
    if (b.data.getD (b.prependBefore - 1) none).isSome then
      ({ b with prependBefore := 0 }, false)
    else
      (⟨b.data.set b.index (some item), b.capacity, b.index, b.counter,
        b.prependBefore - 1⟩, true)

/-- The cursor walk of claim C1: starting element value, then repeatedly
`Next(0)`, collecting each visited cursor's value; `fuel` bounds the
recursion and is chosen larger than any possible walk length. -/
def walkAux {T : Type} (b : RingBuffer T) : Nat → Element T → List (Option T)
  | 0, _ => []
  | fuel + 1, e =>
    e.value :: (match e.Next b 0 with
      | Except.ok (some e2) => walkAux b fuel e2
      | _ => [])

/-- The cursor walk from `Element()`: empty when `Element()` is nil. -/
def RingBuffer.walk {T : Type} (b : RingBuffer T) : List (Option T) :=
  match b.Element with
  | none => []
  | some e => walkAux b (e.counter + 1) e

/-- `N` plain writes of `f 0, f 1, ..., f (N-1)` in order. -/
def writeN {T : Type} (b : RingBuffer T) (f : Nat → T) : Nat → RingBuffer T
  | 0 => b
  | n + 1 => (writeN b f n).Write (f n)

/-- Embeds `SetElement[T]` (storage/fixed_hashset.go) restricted to the state
the claims observe: `item` is the `*T` read out of `hashMap[node.Value].item`
when the element was built (`none` = nil pointer).  The `node` and `set`
back-references only serve `SetElement.Next`, which no claim touches. -/
structure SetElement (T : Type) where
  item : Option T
  deriving DecidableEq, Repr

/-- Embeds `FixedHashSet[T Hashable]` (storage/fixed_hashset.go): `keys` is
the `container/list` of hashes, front = newest (`PushFront`); `hashMap` maps a
hash to the stored item (the Go map value also carries the list node, which is
recovered from `keys`).  The `Hash()` method of the `Hashable` constraint is
passed to the operations as the function `hashFn`. -/
structure FixedHashSet (T : Type) where
  capacity : Nat
  keys : List Nat
  hashMap : Nat → Option T

/-- Embeds `NewFixedHashSet` (storage/fixed_hashset.go): a non-positive
capacity is coerced to 1 ("Ensure at least one item can be stored"). -/
def NewFixedHashSet (T : Type) (capacity : Int) : FixedHashSet T :=
  { capacity := (if capacity ≤ 0 then 1 else capacity).toNat
    keys := []
    hashMap := fun _ => none }

/-- Embeds `FixedHashSet.Size`: the length of the key list. -/
def FixedHashSet.Size {T : Type} (h : FixedHashSet T) : Nat := h.keys.length

/-- Embeds `FixedHashSet.Get`: look up by hash, nil on a miss. -/
def FixedHashSet.Get {T : Type} (h : FixedHashSet T) (hash : Nat) :
    Option (SetElement T) :=
  match h.hashMap hash with
  | some _ => some ⟨h.hashMap hash⟩
  | none => none

/-- Embeds `FixedHashSet.Add` (storage/fixed_hashset.go): if the hash exists,
return the pre-existing entry unchanged; otherwise evict the list tail when
`keys.Len() >= capacity`, push the new hash at the front and record the item.
Returns the new set state and the returned `*SetElement`. -/
def FixedHashSet.Add {T : Type} (hashFn : T → Nat) (h : FixedHashSet T) (item : T) :
    FixedHashSet T × SetElement T :=
  let hash := hashFn item
  match h.hashMap hash with
  | some _ => (h, ⟨h.hashMap hash⟩)
  | none =>
    let h1 :=
      if h.keys.length ≥ h.capacity then
        match h.keys.getLast? with
        | some oldest =>
          { h with keys := h.keys.dropLast
                   hashMap := fun k => if k = oldest then none else h.hashMap k }
        | none => h
      else h
    let m2 : Nat → Option T := fun k => if k = hash then some item else h1.hashMap k
    ({ h1 with keys := hash :: h1.keys, hashMap := m2 }, ⟨m2 hash⟩)

/-- Embeds `FixedHashSet.Remove` (storage/fixed_hashset.go): false on a miss,
otherwise unlink the node (the unique occurrence of the hash in `keys`) and
delete the map entry. -/
def FixedHashSet.Remove {T : Type} (hashFn : T → Nat) (h : FixedHashSet T) (item : T) :
    FixedHashSet T × Bool :=
  let hash := hashFn item
  match h.hashMap hash with
  | none => (h, false)
  | some _ =>
    ({ h with keys := h.keys.erase hash
              hashMap := fun k => if k = hash then none else h.hashMap k }, true)

/-- Embeds `SetElement.Item`. -/
def SetElement.Item {T : Type} (e : SetElement T) : Option T := e.item

/-- Embeds the `LogVarFilter` interface value (server/database/filter.go) by
the only behaviour `LogFilter.Sql` consumes: its `SqlCondition()` output. -/
structure LogVarFilter where
  sqlCondition : String
  deriving DecidableEq, Repr

/-- Embeds `LogFilter` (server/database/filter.go). -/
structure LogFilter where
  varFilters : List LogVarFilter
  deriving DecidableEq, Repr

/-- Embeds `LogFilter.Sql` (server/database/filter.go) exactly as written:
`sql` starts as `"WHERE "` and each iteration appends `" AND "` whenever `sql`
is non-empty, then the condition. -/
def LogFilter.Sql (f : LogFilter) : String :=
  f.varFilters.foldl
    (fun sql flt => (if sql ≠ "" then sql ++ " AND " else sql) ++ flt.sqlCondition)
    "WHERE "

/-- Embeds `core.Level` (core/log.go). -/
inductive Level where
  | TRACE
  | DEBUG
  | INFO
  | WARN
  | ERROR
  | FATAL
  deriving DecidableEq, Repr

/-- `time.Time` instants, abstracted to naturals: `Before`/`After`/`Equal`
become `<`/`>`/`=`. -/
abbrev Time := Nat

/-- Embeds `core.Log` (core/log.go).  `MessageJson` is an optional JSON
object whose payload no embedded operation inspects, so only its presence is
kept. -/
structure Log where
  Level : Level
  Source : Option String
  Group : Option String
  Message : String
  MessageJson : Option Unit
  RecordedAt : Time
  ReceivedAt : Option Time
  deriving DecidableEq, Repr

namespace database

/-- Embeds `database.FieldFilter[T]` (database/filter.go), with the source's
field order `Le, Ge, Eq, Ne`. -/
structure FieldFilter (T : Type) where
  Le : Option T
  Ge : Option T
  Eq : Option T
  Ne : Option T
  deriving DecidableEq, Repr

/-- Embeds `database.Filter` (database/filter.go). -/
structure Filter where
  Level : Option (FieldFilter Level)
  Source : Option (FieldFilter String)
  Group : Option (FieldFilter String)
  Message : Option (FieldFilter String)
  ReceivedAt : Option (FieldFilter Time)
  deriving DecidableEq, Repr

/-- `strings.Contains` on the character lists: does `pat` occur in `s`? -/
def strContainsAux (pat : List Char) : List Char → Bool
  | [] => pat.isEmpty
  | c :: rest => pat.isPrefixOf (c :: rest) || strContainsAux pat rest

/-- `strings.Contains s sub`. -/
def strContains (s sub : String) : Bool := strContainsAux sub.toList s.toList

/-- The `Level` conjunct of `Filter.Filter`: `ifField(f.Level, func() bool {
return *f.Level.Eq == log.Level })`.  Dereferencing a nil `Eq` panics, which
is the `none` result. -/
def levelCheck : Option (FieldFilter Level) → Log → Option Bool
  | none, _ => some true
  | some f, log =>
    match f.Eq with
    | none => none
    | some eq => some (decide (eq = log.Level))

/-- The `Source` conjunct: `ifField(f.Source, log.Source, closure)`; `isValid`
sees the nil `log.Source` pointer before calling the closure, so an absent
source fails the conjunct without a panic. -/
def sourceCheck : Option (FieldFilter String) → Log → Option Bool
  | none, _ => some true
  | some f, log =>
    match log.Source with
    | none => some false
    | some src =>
      match f.Eq with
      | none => none
      | some eq => some (strContains src eq)

/-- The `Group` conjunct, identical in shape to the `Source` conjunct. -/
def groupCheck : Option (FieldFilter String) → Log → Option Bool
  | none, _ => some true
  | some f, log =>
    match log.Group with
    | none => some false
    | some grp =>
      match f.Eq with
      | none => none
      | some eq => some (strContains grp eq)

/-- The `Message` conjunct: `regexp.MatchString(*f.Message.Eq, log.Message)`.
The regular-expression engine is an oracle parameter `regexMatch`; its `none`
result is the panic raised on a compile error. -/
def messageCheck (regexMatch : String → String → Option Bool) :
    Option (FieldFilter String) → Log → Option Bool
  | none, _ => some true
  | some f, log =>
    match f.Eq with
    | none => none
    | some pat => regexMatch pat log.Message

/-- The `ReceivedAt` conjunct of `Filter.Filter` (database/filter.go):
`ifField(f.ReceivedAt, log.ReceivedAt, closure)`.  The nil-pointer check on
`log.ReceivedAt` comes first; the closure then switches on `Eq`, `Le` and
`Ge` against `log.RecordedAt`, and panics (`none`) when none is set. -/
def receivedAtCheck : Option (FieldFilter Time) → Log → Option Bool
  | none, _ => some true
  | some f, log =>
    match log.ReceivedAt with
    | none => some false
    | some _ =>
      match f.Eq, f.Le, f.Ge with
      | some eq, _, _ => some (decide (log.RecordedAt = eq))
      | none, some le, some ge =>
        some (decide (log.RecordedAt ≤ le) && decide (ge ≤ log.RecordedAt))
      | none, some le, none => some (decide (log.RecordedAt ≤ le))
      | none, none, some ge => some (decide (ge ≤ log.RecordedAt))
      | none, none, none => none

/-- Embeds `Filter.Filter` (database/filter.go): all five `ifField` arguments
are evaluated (Go evaluates the call's arguments eagerly), so a panic in any
conjunct poisons the whole call (`none`); otherwise the conjunction of the
five boolean results. -/
def Filter.Filter (f : Filter) (regexMatch : String → String → Option Bool)
    (log : Log) : Option Bool :=
  match levelCheck f.Level log, sourceCheck f.Source log, groupCheck f.Group log,
      messageCheck regexMatch f.Message log, receivedAtCheck f.ReceivedAt log with
  | some a, some b, some c, some d, some e => some (a && b && c && d && e)
  | _, _, _, _, _ => none

end database

/-- Embeds `LogManager` (storage/log_manager.go): `writeChannel` is the queue
of enqueued records in send order.  The `caches` ring and the mutex carry no
state any claim observes. -/
structure LogManager where
  size : Nat
  writeChannel : List Log
  buffer : RingBuffer Log
  deriving DecidableEq, Repr

/-- Embeds `NewLogManager` (storage/log_manager.go); the drain goroutine holds
no state. -/
def NewLogManager (size : Nat) : LogManager :=
  { size := size, writeChannel := [], buffer := NewRingBuffer Log size }

/-- Embeds `LogManager.Write` (storage/log_manager.go) exactly as written: a
nil record is rejected; otherwise the code executes `log.RecordedAt =
time.Now()` (the `now` parameter) and sends the record on `writeChannel`.
Returns the new manager state and the record as mutated. -/
def LogManager.Write (m : LogManager) (now : Time) (log : Option Log) :
    Except String (LogManager × Log) :=
  match log with
  | none => Except.error "log is nil"
  | some lg =>
    let stamped := { lg with RecordedAt := now }
    Except.ok ({ m with writeChannel := m.writeChannel ++ [stamped] }, stamped)

/-- Embeds `LogReader` (storage/log_manager.go): `once` is the
`atomic.Int32` guarding `OpenStream`.  The request channel, filter and
manager reference feed only the streaming goroutine. -/
structure LogReader where
  count : Nat
  once : Nat
  deriving DecidableEq, Repr

/-- Embeds `LogManager.GetReader`: `&LogReader{}`, all fields zero. -/
def LogManager.GetReader (_ : LogManager) : LogReader :=
  { count := 0, once := 0 }

/-- Embeds `LogReader.Count`. -/
def LogReader.Count (r : LogReader) : Nat := r.count

/-- Embeds `LogReader.OpenStream` (storage/log_manager.go): the
`once.CompareAndSwap(0, 1)` gate.  Returns the new reader state, the
delivery channel (`some ()` when one is created) and the error. -/
def LogReader.OpenStream (r : LogReader) : LogReader × Option Unit × Option String :=
  if r.once = 0 then ({ r with once := 1 }, some (), none)
  else (r, none, some "stream already started")

/-! Arithmetic toolkit for modular index reasoning. -/

theorem loopSubtract_one (a C : Nat) (hC : 0 < C) (hC64 : C < uintSize) (ha : a < C) :
    loopSubtract a 1 C = if a = 0 then C - 1 else a - 1 := by
  unfold loopSubtract loopSubtract64
  rcases Nat.eq_zero_or_pos a with h0 | h0
  · subst h0
    have h1 : C + uintSize - 1 = (C - 1) + uintSize := by omega
    simp only [if_pos (by omega : (0:Nat) < 1), h1, Nat.add_mod_right, if_pos rfl]
    exact Nat.mod_eq_of_lt (by omega)
  · rw [if_neg (by omega), if_neg (by omega)]

theorem pred_mod (m C : Nat) (hC : 0 < C) (hm : 0 < m) :
    (m - 1) % C = if m % C = 0 then C - 1 else m % C - 1 := by
  have hdm : C * (m / C) + m % C = m := Nat.div_add_mod m C
  have hr : m % C < C := Nat.mod_lt m hC
  rcases Nat.eq_zero_or_pos (m % C) with h0 | h0
  · rw [if_pos h0]
    have hq : 0 < m / C := by
      rcases Nat.eq_zero_or_pos (m / C) with hq0 | hq0
      · simp [hq0] at hdm
        omega
      · exact hq0
    have hmul : C * (m / C - 1) = C * (m / C) - C * 1 := Nat.mul_sub C (m / C) 1
    have hge : C * 1 <= C * (m / C) := Nat.mul_le_mul_left C hq
    have : m - 1 = (C - 1) + C * (m / C - 1) := by omega
    rw [this, Nat.add_mul_mod_self_left]
    exact Nat.mod_eq_of_lt (by omega)
  · rw [if_neg (by omega)]
    have : m - 1 = (m % C - 1) + C * (m / C) := by omega
    rw [this, Nat.add_mul_mod_self_left]
    exact Nat.mod_eq_of_lt (by omega)

theorem mod_pred (m C : Nat) (hC : 0 < C) (hC64 : C < uintSize) (hm : 0 < m) :
    loopSubtract (m % C) 1 C = (m - 1) % C := by
  rw [loopSubtract_one (m % C) C hC hC64 (Nat.mod_lt m hC), pred_mod m C hC hm]

theorem sub_mod_sub (x j C : Nat) (hj : j ≤ x) (hC : 0 < C) :
    (x - (x - j) % C) % C = j % C := by
  have hdm : C * ((x - j) / C) + (x - j) % C = x - j := Nat.div_add_mod (x - j) C
  have h1 : x - (x - j) % C = j + C * ((x - j) / C) := by omega
  rw [h1, Nat.add_mul_mod_self_left]

theorem sub_self_mod (N C : Nat) (hC : 0 < C) : (N - N % C) % C = 0 := by
  have hdm : C * (N / C) + N % C = N := Nat.div_add_mod N C
  have h1 : N - N % C = 0 + C * (N / C) := by omega
  rw [h1, Nat.add_mul_mod_self_left]
  simp

theorem mod_sub_zero_eq (n p C : Nat) (hC : 0 < C) (hp : p < C) (hpn : p ≤ n)
    (h0 : (n - p) % C = 0) : n % C = p := by
  have hdm : C * ((n - p) / C) + (n - p) % C = n - p := Nat.div_add_mod (n - p) C
  have h1 : n = p + C * ((n - p) / C) := by omega
  rw [h1, Nat.add_mul_mod_self_left]
  exact Nat.mod_eq_of_lt hp

theorem writeN_state {T : Type} (C : Nat) (f : Nat → T) (hC : 0 < C) :
    ∀ N, N < uintSize →
      (writeN (NewRingBuffer T C) f N).capacity = C ∧
      (writeN (NewRingBuffer T C) f N).counter = N ∧
      (writeN (NewRingBuffer T C) f N).index = N % C ∧
      (writeN (NewRingBuffer T C) f N).data.length = C ∧
      (writeN (NewRingBuffer T C) f N).prependBefore = C ∧
      ∀ p, p < C → (writeN (NewRingBuffer T C) f N).data[p]? =
        some (if p < N then some (f (N - 1 - (N - 1 - p) % C)) else none) := by
  intro N
  induction N with
  | zero =>
    intro _
    refine ⟨rfl, rfl, rfl, by simp [writeN, NewRingBuffer], rfl, ?_⟩
    intro p hp
    simp [writeN, NewRingBuffer, List.getElem?_replicate, hp]
  | succ n ih =>
    intro hN
    obtain ⟨hcap, hcnt, hidx, hlen, hpre, hdata⟩ := ih (by omega)
    have hnc : n % C < C := Nat.mod_lt n hC
    have hdataeq : (writeN (NewRingBuffer T C) f (n + 1)).data =
        (writeN (NewRingBuffer T C) f n).data.set (n % C) (some (f n)) := by
      rw [show writeN (NewRingBuffer T C) f (n + 1) =
        (writeN (NewRingBuffer T C) f n).Write (f n) from rfl]
      rw [RingBuffer.Write, hidx]
    refine ⟨?_, ?_, ?_, ?_, ?_, ?_⟩
    · rw [show writeN (NewRingBuffer T C) f (n + 1) =
        (writeN (NewRingBuffer T C) f n).Write (f n) from rfl, RingBuffer.Write]
      exact hcap
    · rw [show writeN (NewRingBuffer T C) f (n + 1) =
        (writeN (NewRingBuffer T C) f n).Write (f n) from rfl, RingBuffer.Write]
      simp only [hcnt]
      exact Nat.mod_eq_of_lt hN
    · rw [show writeN (NewRingBuffer T C) f (n + 1) =
        (writeN (NewRingBuffer T C) f n).Write (f n) from rfl, RingBuffer.Write]
      simp only [hidx, hcap, loopAdd, loopAdd64]
      simp [Nat.add_mod]
    · rw [hdataeq, List.length_set]
      exact hlen
    · rw [show writeN (NewRingBuffer T C) f (n + 1) =
        (writeN (NewRingBuffer T C) f n).Write (f n) from rfl, RingBuffer.Write]
      exact hpre
    · intro p hp
      rw [hdataeq, List.getElem?_set, hlen]
      by_cases hpe : n % C = p
      · have hple : p ≤ n := by
          rw [← hpe]
          exact Nat.mod_le n C
        rw [if_pos hpe, if_pos hnc, if_pos (show p < n + 1 by omega)]
        have h2 : n + 1 - 1 - (n + 1 - 1 - p) % C = n := by
          subst hpe
          have hss := sub_self_mod n C hC
          have hle : n % C <= n := Nat.mod_le n C
          simp only [Nat.add_sub_cancel]
          omega
        rw [h2]
      · rw [if_neg hpe, hdata p hp]
        rcases Nat.lt_trichotomy p n with hpn | hpn | hpn
        · have h1 : (n - p) % C ≠ 0 := fun h0 =>
            hpe (mod_sub_zero_eq n p C hC hp (by omega) h0)
          have h2 : (n - 1 - p) % C = (n - p) % C - 1 := by
            have h3 : n - 1 - p = n - p - 1 := by omega
            rw [h3, pred_mod (n - p) C hC (by omega), if_neg h1]
          have h4 : (n - p) % C ≤ n - p := Nat.mod_le _ _
          rw [if_pos (show p < n by omega), if_pos (show p < n + 1 by omega)]
          have h5 : n - 1 - (n - 1 - p) % C = n + 1 - 1 - (n + 1 - 1 - p) % C := by
            simp only [Nat.add_sub_cancel]
            omega
          rw [h5]
        · exact absurd (hpn ▸ Nat.mod_eq_of_lt hp : n % C = p) hpe
        · rw [if_neg (by omega), if_neg (by omega)]

theorem next_step_continue {T : Type} (C N : Nat) (f : Nat → T) (hC : 0 < C)
    (hC64 : C < uintSize) (hN : N < uintSize) (k : Nat) (v : Option T)
    (hk : k + 1 < Nat.min N C) :
    Element.Next (writeN (NewRingBuffer T C) f N)
      ⟨v, (N - 1 - k) % C, N - k⟩ 0 =
    Except.ok (some ⟨some (f (N - 1 - (k + 1))), (N - 1 - (k + 1)) % C, N - (k + 1)⟩) := by
  obtain ⟨hcap, hcnt, hidx, hlen, hpre, hdata⟩ := writeN_state C f hC N hN
  have hmin : Nat.min N C ≤ N := Nat.min_le_left N C
  have hminC : Nat.min N C ≤ C := Nat.min_le_right N C
  have hoff : (0 + 1) % uintSize = 1 := Nat.mod_eq_of_lt (by norm_num [uintSize])
  have hcapeq : (writeN (NewRingBuffer T C) f N).Capacity = C := hcap
  have hm1 : 0 < N - 1 - k := by omega
  have hpos : loopSubtract ((N - 1 - k) % C) 1 C = (N - 1 - k - 1) % C :=
    mod_pred (N - 1 - k) C hC hC64 hm1
  have hplt : (N - 1 - k - 1) % C < C := Nat.mod_lt _ hC
  have hple : (N - 1 - k - 1) % C ≤ N - 1 - k - 1 := Nat.mod_le _ _
  have hcell := hdata ((N - 1 - k - 1) % C) hplt
  rw [if_pos (show (N - 1 - k - 1) % C < N by omega)] at hcell
  have hexp : (N - 1 - (N - 1 - (N - 1 - k - 1) % C) % C) = N - 1 - (k + 1) := by
    have h6 : N - 1 - k - 1 = N - 1 - (k + 1) := by omega
    rw [h6, sub_mod_sub (N - 1) (k + 1) C (by omega) hC,
      Nat.mod_eq_of_lt (show k + 1 < C by omega)]
  rw [hexp] at hcell
  have hvalid : ((writeN (NewRingBuffer T C) f N).counter + uintSize - (N - k - 1)) %
      uintSize = k + 1 := by
    rw [hcnt]
    have h7 : N + uintSize - (N - k - 1) = (k + 1) + uintSize := by omega
    rw [h7, Nat.add_mod_right]
    exact Nat.mod_eq_of_lt (by omega)
  simp only [Element.Next, hoff, hcapeq, hpos]
  rw [if_neg (show ¬(1 > N - k) by omega)]
  rw [List.get?_eq_getElem?, hcell]
  simp only [Element.Valid, Option.isSome_some, Bool.true_and, hvalid, hcap]
  rw [if_pos (by exact decide_eq_true (show k + 1 < C by omega))]
  have h8 : N - 1 - k - 1 = N - 1 - (k + 1) := by omega
  have h9 : N - k - 1 = N - (k + 1) := by omega
  rw [h8, h9]

theorem next_step_stop {T : Type} (C N : Nat) (f : Nat → T) (hC : 0 < C)
    (hC64 : C < uintSize) (hN : N < uintSize) (k : Nat) (v : Option T)
    (hk : k < Nat.min N C) (hk1 : k + 1 = Nat.min N C) :
    Element.Next (writeN (NewRingBuffer T C) f N)
      ⟨v, (N - 1 - k) % C, N - k⟩ 0 = Except.ok none := by
  obtain ⟨hcap, hcnt, hidx, hlen, hpre, hdata⟩ := writeN_state C f hC N hN
  have hoff : (0 + 1) % uintSize = 1 := Nat.mod_eq_of_lt (by norm_num [uintSize])
  have hcapeq : (writeN (NewRingBuffer T C) f N).Capacity = C := hcap
  simp only [Element.Next, hoff, hcapeq]
  rcases Nat.lt_or_ge N (C + 1) with hNC | hNC
  · -- N <= C, min = N, k = N - 1
    have hminN : Nat.min N C = N := Nat.min_eq_left (by omega)
    rw [hminN] at hk hk1
    rw [if_neg (show ¬(1 > N - k) by omega)]
    have hpz : (N - 1 - k) % C = 0 := by
      rw [show N - 1 - k = 0 by omega, Nat.zero_mod]
    have hpos : loopSubtract ((N - 1 - k) % C) 1 C = C - 1 := by
      rw [hpz, loopSubtract_one 0 C hC hC64 hC, if_pos rfl]
    have hcell := hdata (C - 1) (by omega)
    rw [List.get?_eq_getElem?, hpos, hcell]
    rcases Nat.lt_or_ge (C - 1) N with hc1 | hc1
    · -- N = C: cell occupied, but the counter distance equals the capacity
      rw [if_pos hc1]
      have hvd : ((writeN (NewRingBuffer T C) f N).counter + uintSize - (N - k - 1)) %
          uintSize = N := by
        rw [hcnt, show N + uintSize - (N - k - 1) = N + uintSize by omega,
          Nat.add_mod_right]
        exact Nat.mod_eq_of_lt hN
      simp only [Element.Valid, Option.isSome_some, Bool.true_and, hvd, hcap]
      rw [if_neg (by simp only [decide_eq_true_eq]; omega)]
    · -- N < C: the next cell was never written
      rw [if_neg (by omega)]
      simp [Element.Valid]
  · -- C < N, min = C, k = C - 1: the counter distance equals the capacity
    have hminC2 : Nat.min N C = C := Nat.min_eq_right (by omega)
    rw [hminC2] at hk hk1
    rw [if_neg (show ¬(1 > N - k) by omega)]
    have hm1 : 0 < N - 1 - k := by omega
    have hpos : loopSubtract ((N - 1 - k) % C) 1 C = (N - 1 - k - 1) % C :=
      mod_pred (N - 1 - k) C hC hC64 hm1
    have hplt : (N - 1 - k - 1) % C < C := Nat.mod_lt _ hC
    have hcell := hdata ((N - 1 - k - 1) % C) hplt
    have hvd : ((writeN (NewRingBuffer T C) f N).counter + uintSize - (N - k - 1)) %
        uintSize = C := by
      rw [hcnt, show N + uintSize - (N - k - 1) = C + uintSize by omega,
        Nat.add_mod_right]
      exact Nat.mod_eq_of_lt hC64
    rcases Nat.lt_or_ge ((N - 1 - k - 1) % C) N with hpn | hpn
    · rw [if_pos hpn] at hcell
      rw [List.get?_eq_getElem?, hpos, hcell]
      simp only [Element.Valid, Option.isSome_some, Bool.true_and, hvd, hcap]
      rw [if_neg (by simp only [decide_eq_true_eq]; omega)]
    · rw [if_neg (by omega)] at hcell
      rw [List.get?_eq_getElem?, hpos, hcell]
      simp only [Element.Valid, Option.isSome_none, Bool.false_and]
      rw [if_neg Bool.false_ne_true]

theorem walkAux_writeN {T : Type} (C N : Nat) (f : Nat → T) (hC : 0 < C)
    (hC64 : C < uintSize) (hN : N < uintSize) :
    ∀ fuel k, k < Nat.min N C → Nat.min N C - k ≤ fuel →
      walkAux (writeN (NewRingBuffer T C) f N) fuel
        ⟨some (f (N - 1 - k)), (N - 1 - k) % C, N - k⟩ =
      (List.range (Nat.min N C - k)).map (fun j => some (f (N - 1 - k - j))) := by
  intro fuel
  induction fuel with
  | zero =>
    intro k hk hf
    omega
  | succ fuel ih =>
    intro k hk hf
    rcases Nat.lt_or_ge (k + 1) (Nat.min N C) with hkl | hkl
    · rw [walkAux]
      simp only [next_step_continue C N f hC hC64 hN k _ hkl]
      rw [ih (k + 1) hkl (by omega)]
      rw [show Nat.min N C - k = (Nat.min N C - (k + 1)) + 1 by omega,
        List.range_succ_eq_map, List.map_cons, List.map_map]
      refine congrArg₂ _ (by simp) ?_
      refine List.map_congr_left ?_
      intro j _
      simp only [Function.comp_apply]
      refine congrArg _ (congrArg f ?_)
      omega
    · have hkeq : k + 1 = Nat.min N C := by omega
      rw [walkAux]
      simp only [next_step_stop C N f hC hC64 hN k _ hk hkeq]
      rw [show Nat.min N C - k = 1 by omega]
      simp [List.range_succ]

theorem walk_writeN {T : Type} (C N : Nat) (f : Nat → T) (hC : 0 < C)
    (hC64 : C < uintSize) (hN : N < uintSize) :
    (writeN (NewRingBuffer T C) f N).walk =
      (List.range (Nat.min N C)).map (fun k => some (f (N - 1 - k))) := by
  obtain ⟨hcap, hcnt, hidx, hlen, hpre, hdata⟩ := writeN_state C f hC N hN
  rcases Nat.eq_zero_or_pos N with hz | hpos
  · subst hz
    rw [RingBuffer.walk, RingBuffer.Element, newElement, if_pos hcnt]
    simp
  · have hcapeq : (writeN (NewRingBuffer T C) f N).Capacity = C := hcap
    have he : (writeN (NewRingBuffer T C) f N).Element =
        some ⟨some (f (N - 1 - 0)), (N - 1 - 0) % C, N - 0⟩ := by
      rw [RingBuffer.Element, newElement, if_neg (by omega), hcapeq, hidx]
      have hpos1 : loopSubtract (N % C) 1 C = (N - 1) % C := mod_pred N C hC hC64 hpos
      have hplt : (N - 1) % C < C := Nat.mod_lt _ hC
      have hcell := hdata ((N - 1) % C) hplt
      have hple : (N - 1) % C ≤ N - 1 := Nat.mod_le _ _
      rw [if_pos (by omega)] at hcell
      have hexp : N - 1 - (N - 1 - (N - 1) % C) % C = N - 1 := by
        have h2 := sub_mod_sub (N - 1) 0 C (by omega) hC
        simp only [Nat.sub_zero, Nat.zero_mod] at h2
        omega
      rw [hexp] at hcell
      have hgd : (writeN (NewRingBuffer T C) f N).data.getD ((N - 1) % C) none =
          some (f (N - 1)) := by
        rw [List.getD_eq_getElem?_getD, hcell]
        rfl
      rw [hpos1]
      simp only [hgd, hcnt]
      simp
    rw [RingBuffer.walk, he]
    have hmin0 : 0 < Nat.min N C := lt_min_iff.mpr ⟨hpos, hC⟩
    have hminN : Nat.min N C ≤ N := Nat.min_le_left N C
    have hwa := walkAux_writeN C N f hC hC64 hN (N - 0 + 1) 0 hmin0 (by omega)
    simp only [Nat.sub_zero] at hwa ⊢
    rw [hwa]

/-- Claim C1: for every ring buffer of capacity `C > 0`, after `N` plain
writes (no backfills) the cursor walk starting at `Element()` and repeatedly
taking `Next(0)` yields exactly `min N C` records, in strict reverse write
order (`f (N-1), f (N-2), ...`); in particular `Element()` is none when
`N = 0`. -/
theorem ringbuffer_walk_reverse_order {T : Type} (C N : Nat) (f : Nat → T)
    (hC : 0 < C) (hC64 : C < uintSize) (hN : N < uintSize) :
    (writeN (NewRingBuffer T C) f N).walk =
      (List.range (Nat.min N C)).map (fun k => some (f (N - 1 - k))) ∧
    (N = 0 → (writeN (NewRingBuffer T C) f N).Element = none) := by
  refine ⟨walk_writeN C N f hC hC64 hN, ?_⟩
  intro hz
  subst hz
  obtain ⟨_, hcnt, _, _, _, _⟩ := writeN_state C f hC 0 hN
  rw [RingBuffer.Element, newElement, if_pos hcnt]

/-- Witness for C1: five writes into a capacity-3 buffer walk back as
`4, 3, 2`. -/
theorem ringbuffer_walk_reverse_order_witness :
    (writeN (NewRingBuffer Nat 3) (fun i => i) 5).walk =
      (List.range (Nat.min 5 3)).map (fun k => some (5 - 1 - k)) ∧
    ((5 : Nat) = 0 → (writeN (NewRingBuffer Nat 3) (fun i => i) 5).Element = none) :=
  ringbuffer_walk_reverse_order 3 5 (fun i => i) (by norm_num)
    (by norm_num [uintSize]) (by norm_num [uintSize])

/-- Claim C2 (failing input): in a capacity-4 buffer holding one write, the
first backfill succeeds, and the second backfill also succeeds while
overwriting cell 1 - the non-empty cell holding the first backfilled item -
because `WriteLastEmpty` stores at `index`, not at the decremented
`prepend_before` position (which stays empty). -/
theorem writeLastEmpty_overwrites_at_index :
    (((NewRingBuffer Nat 4).Write 100).WriteLastEmpty 200) =
      (⟨[some 100, some 200, none, none], 4, 1, 1, 3⟩, true) ∧
    ((((NewRingBuffer Nat 4).Write 100).WriteLastEmpty 200).1.WriteLastEmpty 300) =
      (⟨[some 100, some 300, none, none], 4, 1, 1, 2⟩, true) := by
  decide

/-- Claim C3 (counterexample): the claim says `Next` is total and never
reaches a data position outside `[0, C)`.  On the capacity-3 buffer after 10
writes, `Element()` has `pos = 0` and `counter = 10`, and `Next(7)` passes the
`offset+1 > counter` guard but computes the wrapped position
`3 + 2^64 - 8 = 2^64 - 5`, so the slice access panics (`Except.error`). -/
theorem next_panics_out_of_range :
    (writeN (NewRingBuffer Nat 3) (fun i => i) 10).Element =
      some ⟨some 9, 0, 10⟩ ∧
    Element.Next (writeN (NewRingBuffer Nat 3) (fun i => i) 10)
      ⟨some 9, 0, 10⟩ 7 = Except.error () := by
  constructor
  · decide
  · have hb : writeN (NewRingBuffer Nat 3) (fun i => i) 10 =
        ⟨[some 9, some 7, some 8], 3, 1, 10, 3⟩ := by decide
    rw [hb]
    simp only [Element.Next, RingBuffer.Capacity, loopSubtract, loopSubtract64, uintSize]
    norm_num

/-- `loopSubtract a o C` agrees with true modular subtraction
`(a + C - o) % C` whenever `o ≤ a + C` (the range on which the Go saturating
form is correct). -/
theorem loopSubtract_spec (a o C : Nat) (hC : 0 < C) (hC64 : C < uintSize)
    (ha : a < C) (hb : o ≤ a + C) :
    loopSubtract a o C = (a + C - o) % C := by
  unfold loopSubtract loopSubtract64
  rcases Nat.lt_or_ge a o with h | h
  · rw [if_pos h, show C + uintSize - (o - a) = (C - (o - a)) + uintSize by omega,
      Nat.add_mod_right, Nat.mod_eq_of_lt (by omega),
      show a + C - o = C - (o - a) by omega, Nat.mod_eq_of_lt (by omega)]
  · rw [if_neg (by omega), show a + C - o = (a - o) + C by omega,
      Nat.add_mod_right, Nat.mod_eq_of_lt (by omega)]

/-- Claim C3 (amended): on a well-formed buffer, provided
`offset + 1 ≤ e.pos + capacity` (and no `uint` wrap of `offset+1`),
`Element.Next` is total - it returns none when `offset + 1 > e.counter`, and
otherwise builds the element at counter `e.counter - (offset+1)` and position
`(e.pos - (offset+1)) mod capacity`, returning it exactly when it passes the
validity predicate; the accessed position stays inside `[0, capacity)`.
Outside that range the position computation wraps past the slice
(see the counterexample). -/
theorem next_total_characterization {T : Type} (b : RingBuffer T) (e : Element T)
    (offset : Nat) (hC : 0 < b.capacity) (hC64 : b.capacity < uintSize)
    (hlen : b.data.length = b.capacity) (hpos : e.pos < b.capacity)
    (hoff : offset + 1 < uintSize) (hbound : offset + 1 ≤ e.pos + b.capacity) :
    Element.Next b e offset =
      (if offset + 1 > e.counter then Except.ok none
       else
         let itemPos := (e.pos + b.capacity - (offset + 1)) % b.capacity
         let el : Element T := ⟨b.data.getD itemPos none, itemPos,
           e.counter - (offset + 1)⟩
         if el.Valid b then Except.ok (some el) else Except.ok none) := by
  have hoffm : (offset + 1) % uintSize = offset + 1 := Nat.mod_eq_of_lt hoff
  have hps : loopSubtract e.pos (offset + 1) b.Capacity =
      (e.pos + b.capacity - (offset + 1)) % b.capacity :=
    loopSubtract_spec e.pos (offset + 1) b.capacity hC hC64 hpos hbound
  have hlt : (e.pos + b.capacity - (offset + 1)) % b.capacity < b.data.length := by
    rw [hlen]
    exact Nat.mod_lt _ hC
  have hsome : b.data.get? ((e.pos + b.capacity - (offset + 1)) % b.capacity) =
      some (b.data.getD ((e.pos + b.capacity - (offset + 1)) % b.capacity) none) := by
    rw [List.get?_eq_getElem?, List.getElem?_eq_getElem hlt,
      List.getD_eq_getElem?_getD, List.getElem?_eq_getElem hlt]
    rfl
  simp only [Element.Next, hoffm, hps, hsome]

/-- Witness for the amended C3: on the capacity-3 buffer after 5 writes,
`Next(1)` from `Element()` lands two records back. -/
theorem next_total_characterization_witness :
    Element.Next (writeN (NewRingBuffer Nat 3) (fun i => i) 5)
      ⟨some 4, 1, 5⟩ 1 =
      (if 1 + 1 > 5 then Except.ok none
       else
         let itemPos := (1 + (writeN (NewRingBuffer Nat 3) (fun i => i) 5).capacity -
           (1 + 1)) % (writeN (NewRingBuffer Nat 3) (fun i => i) 5).capacity
         let el : Element Nat := ⟨(writeN (NewRingBuffer Nat 3) (fun i => i) 5).data.getD
           itemPos none, itemPos, 5 - (1 + 1)⟩
         if el.Valid (writeN (NewRingBuffer Nat 3) (fun i => i) 5) then
           Except.ok (some el)
         else Except.ok none) :=
  next_total_characterization (writeN (NewRingBuffer Nat 3) (fun i => i) 5)
    ⟨some 4, 1, 5⟩ 1 (by decide) (by decide) (by decide) (by decide)
    (by decide) (by decide)

/-- Claim C10: `WriteLastEmpty` - succeeding or failing - leaves `index`,
`counter` and `capacity` unchanged and touches at most `prepend_before` and
the one data cell at `index`; `Write` never changes `prepend_before`.  Hence
the newest-element computation after a backfill still sees the same write
count and write position. -/
theorem writeLastEmpty_frame {T : Type} (b : RingBuffer T) (item : T) :
    ((b.WriteLastEmpty item).1.index = b.index ∧
     (b.WriteLastEmpty item).1.counter = b.counter ∧
     (b.WriteLastEmpty item).1.capacity = b.capacity ∧
     ((b.WriteLastEmpty item).1.data = b.data ∨
      (b.WriteLastEmpty item).1.data = b.data.set b.index (some item)) ∧
     Option.map (fun e => (e.pos, e.counter)) (b.WriteLastEmpty item).1.Element =
       Option.map (fun e => (e.pos, e.counter)) b.Element) ∧
    (b.Write item).prependBefore = b.prependBefore := by
  refine ⟨?_, rfl⟩
  have hsplit : (b.WriteLastEmpty item).1 = b ∨
      (b.WriteLastEmpty item).1 = ⟨b.data, b.capacity, b.index, b.counter, 0⟩ ∨
      (b.WriteLastEmpty item).1 =
        ⟨b.data.set b.index (some item), b.capacity, b.index, b.counter,
          b.prependBefore - 1⟩ := by
    unfold RingBuffer.WriteLastEmpty
    by_cases h1 : b.prependBefore = 0
    · simp [h1]
    · rw [if_neg h1]
      by_cases h2 : (b.data.getD (b.prependBefore - 1) none).isSome = true
      · rw [if_pos h2]
        exact Or.inr (Or.inl rfl)
      · rw [if_neg h2]
        exact Or.inr (Or.inr rfl)
  have hmap : ∀ b2 : RingBuffer T, b2.capacity = b.capacity → b2.index = b.index →
      b2.counter = b.counter →
      Option.map (fun e => (e.pos, e.counter)) b2.Element =
        Option.map (fun e => (e.pos, e.counter)) b.Element := by
    intro b2 hc hi hn
    rw [RingBuffer.Element, RingBuffer.Element, newElement, newElement]
    by_cases h3 : b.counter = 0
    · rw [if_pos (by rw [hn, h3]), if_pos h3]
    · rw [if_neg (by rw [hn]; exact h3), if_neg h3, RingBuffer.Capacity,
        RingBuffer.Capacity, hc, hi, hn]
      simp
  rcases hsplit with h | h | h <;> rw [h]
  · exact ⟨rfl, rfl, rfl, Or.inl rfl, rfl⟩
  · exact ⟨rfl, rfl, rfl, Or.inl rfl, hmap _ rfl rfl rfl⟩
  · exact ⟨rfl, rfl, rfl, Or.inr rfl, hmap _ rfl rfl rfl⟩

/-- Claim C4 (counterexample): at ingest time 7, `LogManager.Write` rewrites
the sender-supplied `recorded_at` (3 becomes 7) and leaves `received_at`
untouched (still 4, never stamped) - the opposite of the claimed stamping. -/
theorem logManager_write_cex :
    LogManager.Write (NewLogManager 2) 7
        (some ⟨Level.INFO, none, none, "m", none, 3, some 4⟩) =
      Except.ok (⟨2, [⟨Level.INFO, none, none, "m", none, 7, some 4⟩],
        NewRingBuffer Log 2⟩, ⟨Level.INFO, none, none, "m", none, 7, some 4⟩) ∧
    (7 : Time) ≠ 3 ∧ (some 4 : Option Time) ≠ some 7 :=
  ⟨rfl, by decide, by decide⟩

/-- Claim C4 (amended): for every non-nil record, `LogManager.Write` stamps
the record's `recorded_at` field with the current time and enqueues the
stamped record at the end of the write channel; `received_at` and every other
field are left unchanged; a nil record is rejected with "log is nil". -/
theorem logManager_write_stamps_recordedAt (m : LogManager) (now : Time) (lg : Log) :
    LogManager.Write m now (some lg) =
      Except.ok (⟨m.size,
        m.writeChannel ++ [⟨lg.Level, lg.Source, lg.Group, lg.Message,
          lg.MessageJson, now, lg.ReceivedAt⟩], m.buffer⟩,
        ⟨lg.Level, lg.Source, lg.Group, lg.Message, lg.MessageJson, now,
          lg.ReceivedAt⟩) ∧
    LogManager.Write m now none = Except.error "log is nil" := ⟨rfl, rfl⟩

/-- Claim C5 (code evaluation at the failing input): `LogFilter.Sql` starts
`sql` at "WHERE ", so its `sql != ""` guard is always true and every
predicate - including the first - is preceded by " AND "; the empty filter
yields the bare "WHERE " prefix. -/
theorem logFilter_sql_leading_and :
    LogFilter.Sql ⟨[⟨"level = 1"⟩]⟩ = "WHERE  AND level = 1" ∧
    LogFilter.Sql ⟨[⟨"level = 1"⟩, ⟨"source = 2"⟩]⟩ =
      "WHERE  AND level = 1 AND source = 2" ∧
    LogFilter.Sql ⟨[]⟩ = "WHERE " := ⟨rfl, rfl, rfl⟩

/-- Claim C6 (counterexample): a filter whose time field is `eq = 5` run on a
record with `recorded_at = 5` but absent `received_at` evaluates to false,
although the claim says the predicate holds iff `recorded_at` equals `eq`. -/
theorem filter_time_requires_receivedAt_cex :
    database.Filter.Filter ⟨none, none, none, none, some ⟨none, none, some 5, none⟩⟩
      (fun _ _ => some true) ⟨Level.INFO, none, none, "", none, 5, none⟩ =
      some false ∧
    (⟨Level.INFO, none, none, "", none, 5, none⟩ : Log).RecordedAt = 5 := ⟨rfl, rfl⟩

/-- Claim C6 (amended): for a filter whose time field is set, the predicate is
the `ReceivedAt` conjunct; when the record's `received_at` pointer is absent
the conjunct fails outright, and when it is present the conjunct is evaluated
against `recorded_at`: `eq` takes priority and holds iff `recorded_at = eq`;
`le` and `ge` together give the inclusive interval `[ge, le]`; `le` (resp.
`ge`) alone gives `recorded_at ≤ le` (resp. `≥ ge`); and none of the three
set panics (programmer error). -/
theorem filter_received_at_semantics (ff : database.FieldFilter Time) (log : Log) :
    (∀ rm, database.Filter.Filter ⟨none, none, none, none, some ff⟩ rm log =
      database.receivedAtCheck (some ff) log) ∧
    (log.ReceivedAt = none → database.receivedAtCheck (some ff) log = some false) ∧
    (log.ReceivedAt ≠ none →
      (∀ eq, ff.Eq = some eq →
        (database.receivedAtCheck (some ff) log = some true ↔ log.RecordedAt = eq)) ∧
      (∀ le ge, ff.Eq = none → ff.Le = some le → ff.Ge = some ge →
        (database.receivedAtCheck (some ff) log = some true ↔
          ge ≤ log.RecordedAt ∧ log.RecordedAt ≤ le)) ∧
      (∀ le, ff.Eq = none → ff.Le = some le → ff.Ge = none →
        (database.receivedAtCheck (some ff) log = some true ↔ log.RecordedAt ≤ le)) ∧
      (∀ ge, ff.Eq = none → ff.Le = none → ff.Ge = some ge →
        (database.receivedAtCheck (some ff) log = some true ↔ ge ≤ log.RecordedAt)) ∧
      (ff.Eq = none → ff.Le = none → ff.Ge = none →
        database.receivedAtCheck (some ff) log = none)) := by
  refine ⟨?_, ?_, ?_⟩
  · intro rm
    cases hrc : database.receivedAtCheck (some ff) log <;>
      simp [database.Filter.Filter, database.levelCheck, database.sourceCheck,
        database.groupCheck, database.messageCheck, hrc]
  · intro hnone
    simp [database.receivedAtCheck, hnone]
  · intro hsome
    obtain ⟨t, ht⟩ := Option.ne_none_iff_exists'.mp hsome
    refine ⟨?_, ?_, ?_, ?_, ?_⟩
    · intro eq heq
      simp [database.receivedAtCheck, ht, heq]
    · intro le ge heq hle hge
      simp [database.receivedAtCheck, ht, heq, hle, hge, and_comm]
    · intro le heq hle hge
      simp [database.receivedAtCheck, ht, heq, hle, hge]
    · intro ge heq hle hge
      simp [database.receivedAtCheck, ht, heq, hle, hge]
    · intro heq hle hge
      simp [database.receivedAtCheck, ht, heq, hle, hge]

/-- Witness for the amended C6: the interval filter `[1, 3]` accepts the
record with `recorded_at = 2` and present `received_at`. -/
theorem filter_received_at_semantics_witness :
    database.receivedAtCheck (some ⟨some 3, some 1, none, none⟩)
      ⟨Level.INFO, none, none, "", none, 2, some 0⟩ = some true ↔
      (1 : Time) ≤ 2 ∧ (2 : Time) ≤ 3 :=
  ((filter_received_at_semantics ⟨some 3, some 1, none, none⟩
    ⟨Level.INFO, none, none, "", none, 2, some 0⟩).2.2 (by decide)).2.1 3 1
    rfl rfl rfl

/-- Claim C7: adding the same item twice leaves the whole set - in particular
`Size()` and the insertion order `keys` - unchanged after the second call
(no recency refresh); both calls return the same element, whose `Item()` is
the first-inserted item for that hash (the pre-existing one if the hash was
already present, otherwise the item itself). -/
theorem fixedHashSet_add_idempotent {T : Type} (hashFn : T → Nat)
    (s : FixedHashSet T) (x : T) :
    ((s.Add hashFn x).1.Add hashFn x).1 = (s.Add hashFn x).1 ∧
    ((s.Add hashFn x).1.Add hashFn x).2 = (s.Add hashFn x).2 ∧
    ((s.Add hashFn x).1.Add hashFn x).1.Size = (s.Add hashFn x).1.Size ∧
    ((s.Add hashFn x).1.Add hashFn x).1.keys = (s.Add hashFn x).1.keys ∧
    (s.Add hashFn x).2.Item = some ((s.hashMap (hashFn x)).getD x) := by
  cases hm : s.hashMap (hashFn x) with
  | some y =>
    refine ⟨?_, ?_, ?_, ?_, ?_⟩ <;>
      simp [FixedHashSet.Add, FixedHashSet.Size, SetElement.Item, hm]
  | none =>
    refine ⟨?_, ?_, ?_, ?_, ?_⟩ <;>
      simp [FixedHashSet.Add, FixedHashSet.Size, SetElement.Item, hm]

/-- Claim C8: the constructor coerces capacity ≤ 0 to 1 (so such a set holds
at most one item), the constructed set satisfies `Size ≤ capacity`, and both
`Add` (evicting the oldest entry when full) and `Remove` preserve
`Size ≤ capacity` without changing `capacity`. -/
theorem fixedHashSet_size_le_capacity {T : Type} (hashFn : T → Nat) (c : Int)
    (s : FixedHashSet T) (x : T) :
    (NewFixedHashSet T c).Size ≤ (NewFixedHashSet T c).capacity ∧
    1 ≤ (NewFixedHashSet T c).capacity ∧
    (c ≤ 0 → (NewFixedHashSet T c).capacity = 1) ∧
    (s.Add hashFn x).1.capacity = s.capacity ∧
    (s.Remove hashFn x).1.capacity = s.capacity ∧
    (1 ≤ s.capacity → s.Size ≤ s.capacity → (s.Add hashFn x).1.Size ≤ s.capacity) ∧
    (s.Size ≤ s.capacity → (s.Remove hashFn x).1.Size ≤ s.capacity) := by
  refine ⟨?_, ?_, ?_, ?_, ?_, ?_, ?_⟩
  · simp [NewFixedHashSet, FixedHashSet.Size]
  · simp only [NewFixedHashSet]
    split <;> omega
  · intro hc
    simp only [NewFixedHashSet, if_pos hc]
    rfl
  · cases hm : s.hashMap (hashFn x) with
    | some y => simp [FixedHashSet.Add, hm]
    | none =>
      simp only [FixedHashSet.Add, hm]
      split
      · cases hl : s.keys.getLast? <;> rfl
      · rfl
  · cases hm : s.hashMap (hashFn x) <;> simp [FixedHashSet.Remove, hm]
  · intro hcap hsize
    cases hm : s.hashMap (hashFn x) with
    | some y => simpa [FixedHashSet.Add, FixedHashSet.Size, hm] using hsize
    | none =>
      simp only [FixedHashSet.Add, hm, FixedHashSet.Size] at hsize ⊢
      by_cases hfull : s.keys.length ≥ s.capacity
      · rw [if_pos hfull]
        have hne : s.keys ≠ [] := by
          intro hnil
          rw [hnil] at hfull
          simp at hfull
          omega
        cases hl : s.keys.getLast? with
        | none => exact absurd (List.getLast?_eq_none_iff.mp hl) hne
        | some o =>
          simp only [List.length_cons, List.length_dropLast]
          omega
      · rw [if_neg hfull]
        simp only [List.length_cons]
        omega
  · intro hsize
    cases hm : s.hashMap (hashFn x) with
    | some y =>
      simp only [FixedHashSet.Remove, hm, FixedHashSet.Size] at hsize ⊢
      have hsub := List.erase_sublist (hashFn x) s.keys
      have := hsub.length_le
      omega
    | none => simpa [FixedHashSet.Remove, FixedHashSet.Size, hm] using hsize

/-- Witness for C8: a negative capacity is coerced to 1, and adding two items
to a full capacity-1 set keeps its size at 1. -/
theorem fixedHashSet_size_le_capacity_witness :
    (NewFixedHashSet Nat (-3)).capacity = 1 ∧
    ((((NewFixedHashSet Nat 1).Add id 5).1.Add id 7).1.Size ≤
      ((NewFixedHashSet Nat 1).Add id 5).1.capacity) :=
  ⟨(fixedHashSet_size_le_capacity id (-3) (NewFixedHashSet Nat 1) 0).2.2.1
      (by decide),
    (fixedHashSet_size_le_capacity id 1 ((NewFixedHashSet Nat 1).Add id 5).1
      7).2.2.2.2.2.1 (by decide) (by decide)⟩

/-- Claim C9: `GetReader` returns a reader with the `once` gate at 0; on that
reader the first `OpenStream` succeeds, returning a delivery channel and no
error and moving `once` to 1; on any reader whose gate is already set, every
further `OpenStream` returns the "stream already started" error, no channel,
and leaves the reader unchanged - so every call after the first fails. -/
theorem logReader_openStream_once (m : LogManager) (r : LogReader) :
    (m.GetReader).once = 0 ∧
    (m.GetReader).OpenStream = (⟨0, 1⟩, some (), none) ∧
    ((m.GetReader).OpenStream).1.once ≠ 0 ∧
    (r.once ≠ 0 → r.OpenStream = (r, none, some "stream already started")) := by
  refine ⟨rfl, rfl, Nat.one_ne_zero, ?_⟩
  intro h
  rw [LogReader.OpenStream, if_neg h]

/-- Witness for C9: the second call on the reader state produced by the first
`OpenStream` fails with the error and no channel. -/
theorem logReader_openStream_once_witness :
    (⟨0, 1⟩ : LogReader).OpenStream =
      (⟨0, 1⟩, none, some "stream already started") :=
  (logReader_openStream_once (NewLogManager 1) ⟨0, 1⟩).2.2.2 (by decide)
